import Mathlib

/-!
Verification of the chained-segment timer engine in `src/index.ts`
(`setTimeout`, `_setTimeout`, `clearTimeout`, `setInterval`, `clearInterval`,
`AbortError`, `delay`).

Shallow embedding conventions:
* JS numbers that matter here are modelled by `JSNum` (NaN, plus and minus
  infinity, or a finite value represented as a rational).
* `performance.now()` readings and delays are rationals; each event in a
  machine trace carries the clock reading observed at that event.
* The single-threaded event loop is modelled by explicit state machines:
  a state per logical timer, stepped by `fire`/`clear` events.  A `fire`
  event when no native timer is outstanding is a no-op (a cancelled native
  timer never fires), which makes every trace admissible.
-/

namespace TsTimeout

/-- A JavaScript number as far as the timer code observes it: NaN, an
infinity, or a finite value (modelled as a rational). -/
inductive JSNum where
  | nan
  | posInf
  | negInf
  | fin (q : ℚ)
deriving DecidableEq

/-- `MAX_TIMEOUT` from `typings.ts` (re-exported by `index.ts`): the largest
span a native timer accepts, `2^31 - 1` milliseconds. -/
def MAX_TIMEOUT : ℚ := 2147483647

/-- `Number.MAX_SAFE_INTEGER` `= 2^53 - 1`. -/
def maxSafeInteger : ℚ := 9007199254740991

/-- The JS `>` comparison on numbers: any comparison with NaN is false,
`+Infinity` is greater than everything else, `-Infinity` greater than
nothing, finite values compare as rationals. -/
def jsGt : JSNum → JSNum → Bool
  | .nan, _ => false
  | _, .nan => false
  | .posInf, .posInf => false
  | .posInf, _ => true
  | .negInf, _ => false
  | .fin _, .posInf => false
  | .fin _, .negInf => true
  | .fin a, .fin b => decide (b < a)

/-- Outcome of the delay normalisation shared by `_setTimeout`
(lines 89, 121-127) and `setInterval` (lines 183, 216-223). -/
inductive DelayClass where
  | infinite
  | finite (d : ℚ)
deriving DecidableEq

/-- `delay = Number(delay ?? 0)` followed by the two guards of the source:
`delay > Number.MAX_SAFE_INTEGER` selects the infinite (never-scheduling)
branch; afterwards `!Number.isFinite(delay) || delay < 0` collapses the
delay to 0.  After the first guard the only non-finite values left are NaN
and `-Infinity` (the catch-all match arm), both of which the second guard
sends to 0. -/
def classifyDelay (delay? : Option JSNum) : DelayClass :=
  let d := delay?.getD (.fin 0)
  if jsGt d (.fin maxSafeInteger) then .infinite
  else
    match d with
    | .fin q => if q < 0 then .finite 0 else .finite q
    | _ => .finite 0

/-- The mutable state of a `Timeout` object built by `_setTimeout`
(lines 92-119): the `_cleared` flag and the optional `_targetTime`
(absent on the `delay > Number.MAX_SAFE_INTEGER` branch). -/
structure TimeoutHandle where
  cleared : Bool
  targetTime : Option ℚ
deriving DecidableEq

/-- The handle `_setTimeout` returns, as of the end of the synchronous call
started at clock reading `now`: the infinite branch (line 121-123) leaves
`_targetTime` unset, otherwise line 129 sets it to `now + delay`. -/
def mkTimeoutHandle (now : ℚ) (delay? : Option JSNum) : TimeoutHandle :=
  match classifyDelay delay? with
  | .infinite => { cleared := false, targetTime := none }
  | .finite d => { cleared := false, targetTime := some (now + d) }

/-- `timeout.remaining()` (lines 109-118): 0 when cleared, the infinite
sentinel when `_targetTime` is unset, else `Math.max(0, _targetTime - now)`. -/
def TimeoutHandle.remaining (h : TimeoutHandle) (now : ℚ) : JSNum :=
  if h.cleared then .fin 0
  else
    match h.targetTime with
    | none => .posInf
    | some t => .fin (max 0 (t - now))

/-- The interval's target time: `nextTargetTime` is a plain JS number in the
source, set to `Infinity` on the overflow branch (line 217). -/
structure IntervalHandle where
  cleared : Bool
  nextTargetTime : JSNum
deriving DecidableEq

/-- The handle state `setInterval` establishes synchronously: line 217 sets
`nextTargetTime = Infinity` when `delay > Number.MAX_SAFE_INTEGER`,
line 225 sets `nextTargetTime = now + delay` otherwise. -/
def mkIntervalHandle (now : ℚ) (delay? : Option JSNum) : IntervalHandle :=
  match classifyDelay delay? with
  | .infinite => { cleared := false, nextTargetTime := .posInf }
  | .finite d => { cleared := false, nextTargetTime := .fin (now + d) }

/-- `interval.remaining()` (lines 205-213): 0 when cleared, the infinite
sentinel when `nextTargetTime` is not finite, else
`Math.max(0, nextTargetTime - now)`.  The non-`fin` match arms are exactly
the values failing the `Number.isFinite` guard. -/
def IntervalHandle.remaining (h : IntervalHandle) (now : ℚ) : JSNum :=
  if h.cleared then .fin 0
  else
    match h.nextTargetTime with
    | .fin t => .fin (max 0 (t - now))
    | _ => .posInf

/-- A JavaScript runtime value, as far as the variadic-argument handling of
`setTimeout` distinguishes them.  A non-null object is abstracted by
whether `'signal' in obj` holds and by its number of own enumerable keys. -/
inductive JSVal where
  | undef
  | nullv
  | num (q : ℚ)
  | str (s : String)
  | bool (b : Bool)
  | obj (hasSignal : Bool) (ownKeys : ℕ)
  | func
deriving DecidableEq

/-- The options-detection test of `setTimeout` (lines 35-40):
`typeof v === 'object' && v !== null && ('signal' in v ||
Object.keys(v).length === 0)`.  `typeof null` is `'object'` but the
null-check excludes it; functions have `typeof` `'function'`. -/
def isOptionsArg : JSVal → Bool
  | .obj hasSignal ownKeys => hasSignal || ownKeys == 0
  | _ => false

/-- Lines 33-44 of `setTimeout`: look at `args.at(-1)`; when it passes the
options test, `args.pop()` consumes it.  Returns the detected options value
(if any) and the argument list forwarded to the callback. -/
def splitArgs (args : List JSVal) : Option JSVal × List JSVal :=
  match args.getLast? with
  | some v => if isOptionsArg v then (some v, args.dropLast) else (none, args)
  | none => (none, args)

/-- Kind of the outstanding native timer segment: a `chain` segment's native
callback re-issues the next segment (lines 143-147), a `final` segment's
native callback may invoke the user callback (lines 137-141 for the one-shot
timer; lines 233-244, the full-cycle segment, for the interval). -/
inductive Seg where
  | chain
  | final
deriving DecidableEq

/-- An event hitting one logical timer: its `clearTimeout` call, or the fire
of its currently outstanding native timer at clock reading `now`. -/
inductive TimerEv where
  | fire (now : ℚ)
  | clear
deriving DecidableEq

/-- One-shot timer state: the handle fields plus the outstanding native
segment, the number of user-callback invocations so far, and the log of
native segment spans handed to the platform (`globalThis.setTimeout`). -/
structure OneShotState where
  cleared : Bool
  targetTime : Option ℚ
  pendingSeg : Option Seg
  fired : ℕ
  issuedSpans : List ℚ
deriving DecidableEq

/-- `schedule(remainingDelay)` of `_setTimeout` (lines 131-153), up to and
including issuing one native timer: a no-op when `_cleared`; otherwise a
`final` native segment of span `remainingDelay` when
`remainingDelay <= MAX_TIMEOUT`, else a `chain` native segment of span
`MAX_TIMEOUT`. -/
def issueSeg (s : OneShotState) (remainingDelay : ℚ) : OneShotState :=
  if s.cleared then s
  else if remainingDelay ≤ MAX_TIMEOUT then
    { s with pendingSeg := some Seg.final, issuedSpans := s.issuedSpans ++ [remainingDelay] }
  else
    { s with pendingSeg := some Seg.chain, issuedSpans := s.issuedSpans ++ [MAX_TIMEOUT] }

/-- One event of the one-shot timer.  `clearTimeout` (lines 160-172) sets
`_cleared` and cancels the outstanding native timer.  A native fire consumes
the outstanding segment; a `final` fire invokes the callback unless
`_cleared` (line 138); a `chain` fire recomputes
`Math.max(0, (_targetTime ?? 0) - now)` and calls `schedule` again
(lines 143-147). -/
def oneShotStep (s : OneShotState) (e : TimerEv) : OneShotState :=
  match e with
  | .clear => { s with cleared := true, pendingSeg := none }
  | .fire now =>
    match s.pendingSeg with
    | none => s
    | some Seg.final =>
      let s1 := { s with pendingSeg := none }
      if s1.cleared then s1 else { s1 with fired := s1.fired + 1 }
    | some Seg.chain =>
      let s1 := { s with pendingSeg := none }
      issueSeg s1 (max 0 ((s1.targetTime.getD 0) - now))

/-- State of a one-shot timer right after `_setTimeout` returns, the call
having read clock `t0`: the overflow branch (lines 121-123) schedules
nothing, otherwise line 129 sets `_targetTime = t0 + delay` and line 155
issues the first segment via `schedule(delay)`. -/
def oneShotInit (t0 : ℚ) (delay? : Option JSNum) : OneShotState :=
  match classifyDelay delay? with
  | .infinite =>
    { cleared := false, targetTime := none, pendingSeg := none, fired := 0, issuedSpans := [] }
  | .finite d =>
    issueSeg
      { cleared := false, targetTime := some (t0 + d), pendingSeg := none,
        fired := 0, issuedSpans := [] } d

/-- Run a one-shot timer through a list of events. -/
def runOneShot (s : OneShotState) (tr : List TimerEv) : OneShotState :=
  tr.foldl oneShotStep s

/-- Interval state: handle fields (the finite case, where segments do get
scheduled), outstanding native segment, the variadic arguments captured at
`setInterval` time, the log of per-tick callback argument lists, the log of
spans passed to `schedule`, and the log of native segment spans issued. -/
structure IntervalState where
  cleared : Bool
  nextTarget : ℚ
  pendingSeg : Option Seg
  args : List JSVal
  invocations : List (List JSVal)
  scheduleCalls : List ℚ
  issuedSpans : List ℚ
deriving DecidableEq

/-- `schedule(remainingDelay)` of `setInterval` (lines 227-255), up to and
including issuing one native timer; same shape as the one-shot `schedule`. -/
def intervalIssue (s : IntervalState) (remainingDelay : ℚ) : IntervalState :=
  if s.cleared then s
  else if remainingDelay ≤ MAX_TIMEOUT then
    { s with pendingSeg := some Seg.final,
             scheduleCalls := s.scheduleCalls ++ [remainingDelay],
             issuedSpans := s.issuedSpans ++ [remainingDelay] }
  else
    { s with pendingSeg := some Seg.chain,
             scheduleCalls := s.scheduleCalls ++ [remainingDelay],
             issuedSpans := s.issuedSpans ++ [MAX_TIMEOUT] }

/-- One event of the interval with period `p`.  A full-cycle (`final`) fire
(lines 233-244) returns at once when `_cleared`, else advances
`nextTargetTime += p`, calls `schedule(Math.max(0, nextTargetTime - now))`,
then invokes the callback with the captured arguments.  A `chain` fire
(lines 246-250) only recomputes the remaining span and calls `schedule`. -/
def intervalStep (p : ℚ) (s : IntervalState) (e : TimerEv) : IntervalState :=
  match e with
  | .clear => { s with cleared := true, pendingSeg := none }
  | .fire now =>
    match s.pendingSeg with
    | none => s
    | some Seg.final =>
      let s1 := { s with pendingSeg := none }
      if s1.cleared then s1
      else
        let s2 := { s1 with nextTarget := s1.nextTarget + p }
        let s3 := intervalIssue s2 (max 0 (s2.nextTarget - now))
        { s3 with invocations := s3.invocations ++ [s3.args] }
    | some Seg.chain =>
      let s1 := { s with pendingSeg := none }
      intervalIssue s1 (max 0 (s1.nextTarget - now))

/-- Interval state right after `setInterval` returns for a finite clamped
period `p`, the call having read clock `t0`: line 225 sets
`nextTargetTime = t0 + p` and line 257 issues the first segment via
`schedule(p)`.  `setInterval` performs no options detection, so the full
trailing-argument list `args` is captured for the callback as-is
(lines 174-177, 243). -/
def intervalInit (t0 p : ℚ) (args : List JSVal) : IntervalState :=
  intervalIssue
    { cleared := false, nextTarget := t0 + p, pendingSeg := none,
      args := args, invocations := [], scheduleCalls := [], issuedSpans := [] } p

/-- Run an interval through a list of events. -/
def runInterval (p : ℚ) (s : IntervalState) (tr : List TimerEv) : IntervalState :=
  tr.foldl (intervalStep p) s

/-- The `schedule` recursion of `_setTimeout` (lines 131-155) specialised to
an uninterrupted run in which every native segment fires exactly at its
scheduled time (the hypothesis of the chained-segment counting property):
started at clock `now` with `schedule(remainingDelay)`, it returns the list
of native segment spans issued until the callback fires.  `fuel` bounds the
recursion depth and is chosen provably large enough by `chainFuel`. -/
def scheduleChain (fuel : ℕ) (targetTime now remainingDelay : ℚ) : List ℚ :=
  match fuel with
  | 0 => []
  | fuel + 1 =>
    if remainingDelay ≤ MAX_TIMEOUT then
      [remainingDelay]
    else
      MAX_TIMEOUT ::
        scheduleChain fuel targetTime (now + MAX_TIMEOUT)
          (max 0 (targetTime - (now + MAX_TIMEOUT)))

/-- Sufficient recursion depth for `scheduleChain` at total delay `d`. -/
def chainFuel (d : ℚ) : ℕ := (⌈d / MAX_TIMEOUT⌉).toNat + 1

/-- Native segment spans a `setTimeout` call issues until its callback runs,
when left uncleared and with every segment firing exactly on schedule: the
overflow branch never schedules, the finite branch runs the `schedule`
recursion from `schedule(d)` with target `t0 + d` (lines 129, 155). -/
def setTimeoutSegments (t0 : ℚ) (delay? : Option JSNum) : List ℚ :=
  match classifyDelay delay? with
  | .infinite => []
  | .finite d => scheduleChain (chainFuel d) (t0 + d) t0 d

/-- A callback value as the cancellation bridge distinguishes them: whether
invoking it removes the bridge's abort listener from the signal before
running user code. -/
structure CallbackVal where
  removesAbortListener : Bool
deriving DecidableEq

/-- The callback `setTimeout` receives from the caller: user code that does
not touch the bridge's abort listener. -/
def originalCallback : CallbackVal := { removesAbortListener := false }

/-- The wrapper built on lines 76-79: it removes the abort listener from the
signal and then invokes the original callback. -/
def wrappedCallback (_c : CallbackVal) : CallbackVal := { removesAbortListener := true }

/-- Straight-line dataflow of `setTimeout` lines 66-81 in source order: the
local variable `callback` holds the caller's function when line 66 passes it
to `_setTimeout`; only afterwards does line 76 reassign the local to the
listener-removing wrapper.  The value returned here is the callback the
native scheduling actually captured. -/
def bridgeScheduledCallback : CallbackVal :=
  let callback := originalCallback
  let capturedBySetTimeout := callback
  let _callback := wrappedCallback callback
  capturedBySetTimeout

/-- Whether the bridge's abort listener is still registered on the signal
after the timer completes normally: line 72 registers it, and the only
removal on the normal path would come from the scheduled callback itself. -/
def listenerRegisteredAfterNormalFire : Bool :=
  let registered := true
  if bridgeScheduledCallback.removesAbortListener then false else registered

/-- Result of the public `setTimeout` (lines 28-82) as far as scheduling is
concerned: the already-aborted fast path returns the pre-cleared literal of
lines 50-63 (whose `cleared` is `true` and whose `remaining()` is the
constant 0, with nothing scheduled and the callback never referenced again);
otherwise line 66 builds a real timer via `_setTimeout`. -/
inductive SetTimeoutReturn where
  | preCleared
  | scheduled (s : OneShotState)
deriving DecidableEq

/-- Lines 48-66: `signal?.aborted` (absent signal reads as not aborted)
selects the fast path, else `_setTimeout` runs at clock `now`. -/
def setTimeoutEntry (signalAborted? : Option Bool) (now : ℚ) (delay? : Option JSNum) :
    SetTimeoutReturn :=
  if signalAborted?.getD false then .preCleared
  else .scheduled (oneShotInit now delay?)

/-- The `cleared` getter of whatever `setTimeout` returned. -/
def SetTimeoutReturn.clearedFlag : SetTimeoutReturn → Bool
  | .preCleared => true
  | .scheduled s => s.cleared

/-- The `remaining()` of whatever `setTimeout` returned: the pre-cleared
literal hardcodes 0 (lines 60-62). -/
def SetTimeoutReturn.remainingAt : SetTimeoutReturn → ℚ → JSNum
  | .preCleared, _ => .fin 0
  | .scheduled s, now =>
    TimeoutHandle.remaining { cleared := s.cleared, targetTime := s.targetTime } now

/-- Native segments issued synchronously by the `setTimeout` call. -/
def SetTimeoutReturn.spans : SetTimeoutReturn → List ℚ
  | .preCleared => []
  | .scheduled s => s.issuedSpans

/-- The `AbortError` class (lines 271-276): name `'AbortError'`, message
defaulting to the fixed text when none is supplied. -/
structure AbortErr where
  name : String
  message : String
deriving DecidableEq

/-- Default message of `AbortError` (line 273). -/
def defaultAbortMessage : String := "The operation was aborted."

/-- `new AbortError(message?)`. -/
def mkAbortError (message? : Option String) : AbortErr :=
  { name := "AbortError", message := message?.getD defaultAbortMessage }

/-- How a `delay` promise settled. -/
inductive DelaySettle where
  | resolvedU
  | rejectedE (e : AbortErr)
deriving DecidableEq

/-- State of one `delay(ms, { signal })` call (lines 278-296): how (if at
all) the promise has settled (first settlement wins, as for any promise),
whether the underlying timer is still scheduled and uncleared, and whether
the abort listener of `delay` is currently registered on the signal. -/
structure DelayState where
  settled : Option DelaySettle
  timerPending : Bool
  listenerOn : Bool
deriving DecidableEq

/-- Events that can reach a pending `delay` call: its timer's final native
fire, or the signal's abort event. -/
inductive DelayEv where
  | fire
  | abort
deriving DecidableEq

/-- Synchronous part of `delay` (lines 280-294): an already-aborted signal
rejects immediately with `new AbortError()` and schedules nothing; otherwise
a timer is scheduled via `setTimeout(cb, ms)` — pending only when the
clamped delay is finite, since the overflow branch never schedules — and,
when a signal was supplied, the abort listener is registered. -/
def delayInit (hasSignal abortedAtCall : Bool) (ms? : Option JSNum) : DelayState :=
  if hasSignal && abortedAtCall then
    { settled := some (.rejectedE (mkAbortError none)), timerPending := false,
      listenerOn := false }
  else
    { settled := none,
      timerPending := (match classifyDelay ms? with
        | .infinite => false
        | .finite _ => true),
      listenerOn := hasSignal }

/-- One event of a `delay` call.  The timer's fire (only possible while the
timer is outstanding, a cleared timer never firing its callback) resolves
the promise and removes the abort listener (lines 284-287).  The abort event
(only delivered while the listener is registered; `once: true` deregisters
it) clears the timer and rejects with `new AbortError()` (lines 289-292).
Settling is recorded first-wins, as promise semantics dictate. -/
def delayStep (s : DelayState) (e : DelayEv) : DelayState :=
  match e with
  | .fire =>
    if s.timerPending then
      { settled := (match s.settled with
          | some x => some x
          | none => some .resolvedU),
        timerPending := false, listenerOn := false }
    else s
  | .abort =>
    if s.listenerOn then
      { settled := (match s.settled with
          | some x => some x
          | none => some (.rejectedE (mkAbortError none))),
        timerPending := false, listenerOn := false }
    else s

/-- Run a `delay` call through a list of events. -/
def runDelay (s : DelayState) (tr : List DelayEv) : DelayState :=
  tr.foldl delayStep s

/-! Helper lemmas. -/

/-- An invariant preserved by each step is preserved by a whole fold. -/
theorem foldl_invariant {α β : Type} (f : α → β → α) (P : α → Prop)
    (h : ∀ a b, P a → P (f a b)) :
    ∀ (l : List β) (a : α), P a → P (l.foldl f a) := by
  intro l
  induction l with
  | nil => intro a ha; simpa using ha
  | cons b t ih => intro a ha; simpa using ih (f a b) (h a b ha)

/-- The infinite branch is selected exactly when the normalised delay wins
the JS `>` comparison against `Number.MAX_SAFE_INTEGER`. -/
theorem classifyDelay_infinite_iff (d? : Option JSNum) :
    classifyDelay d? = DelayClass.infinite ↔
      jsGt (d?.getD (JSNum.fin 0)) (JSNum.fin maxSafeInteger) = true := by
  unfold classifyDelay
  cases he : d?.getD (JSNum.fin 0) with
  | nan => simp [jsGt]
  | posInf => simp [jsGt]
  | negInf => simp [jsGt]
  | fin q =>
    simp only [jsGt, decide_eq_true_eq]
    by_cases hq : maxSafeInteger < q
    · simp [hq]
    · simp only [hq, if_false, iff_false]
      split <;> simp

/-- Claim C9: `setTimeout` treats an argument as the options object iff it is
the final argument and is a non-null object with a `signal` property or zero
own enumerable keys; a detected options argument is consumed (not forwarded),
so a trailing empty plain object is misclassified as options, while a
signal-carrying object placed before trailing arguments is not detected and
is forwarded to the callback. -/
theorem C9_options_detection :
    (∀ (pre : List JSVal) (v : JSVal), isOptionsArg v = true →
        splitArgs (pre ++ [v]) = (some v, pre)) ∧
    (∀ (pre : List JSVal) (v : JSVal), isOptionsArg v = false →
        splitArgs (pre ++ [v]) = (none, pre ++ [v])) ∧
    (splitArgs [] = (none, [])) ∧
    (∀ (hasSignal : Bool) (ownKeys : ℕ),
        isOptionsArg (JSVal.obj hasSignal ownKeys) = (hasSignal || ownKeys == 0)) ∧
    (isOptionsArg JSVal.undef = false ∧ isOptionsArg JSVal.nullv = false ∧
      isOptionsArg JSVal.func = false ∧ (∀ q : ℚ, isOptionsArg (JSVal.num q) = false) ∧
      (∀ s : String, isOptionsArg (JSVal.str s) = false) ∧
      (∀ b : Bool, isOptionsArg (JSVal.bool b) = false)) ∧
    (splitArgs [JSVal.obj false 0] = (some (JSVal.obj false 0), [])) ∧
    (splitArgs [JSVal.obj true 1, JSVal.num 5] = (none, [JSVal.obj true 1, JSVal.num 5])) := by
  refine ⟨?_, ?_, rfl, fun _ _ => rfl, ⟨rfl, rfl, rfl, fun _ => rfl, fun _ => rfl, fun _ => rfl⟩,
    by decide, by decide⟩
  · intro pre v hv
    simp [splitArgs, List.getLast?_concat, hv, List.dropLast_concat]
  · intro pre v hv
    simp [splitArgs, List.getLast?_concat, hv]

/-- Claim C9 witness at concrete inputs. -/
theorem C9_options_detection_witness :
    splitArgs ([JSVal.num 1] ++ [JSVal.obj true 0]) = (some (JSVal.obj true 0), [JSVal.num 1]) ∧
    splitArgs ([JSVal.num 1] ++ [JSVal.str "x"]) = (none, [JSVal.num 1] ++ [JSVal.str "x"]) :=
  ⟨C9_options_detection.1 [JSVal.num 1] (JSVal.obj true 0) (by decide),
   C9_options_detection.2.1 [JSVal.num 1] (JSVal.str "x") (by decide)⟩

/-- Claim C4 (code bug): line 66 passes the caller's original callback to
`_setTimeout` before line 76 reassigns the local variable to the
listener-removing wrapper, so the native timer fires the original callback
and the wrapper is dead code: after a normal completion the abort listener
registered on line 72 is still registered on the signal.  The last conjunct
records that scheduling the wrapper (the documented intent of the comment on
lines 74-75) would have removed the listener. -/
theorem C4_abort_listener_retained :
    bridgeScheduledCallback = originalCallback ∧
    bridgeScheduledCallback.removesAbortListener = false ∧
    listenerRegisteredAfterNormalFire = true ∧
    (wrappedCallback originalCallback).removesAbortListener = true := by
  decide

/-- Claim C7: with an already-aborted signal, `setTimeout` returns the
pre-cleared literal (cleared, `remaining()` constantly 0, no native segment
issued, the callback never scheduled), and `delay` rejects immediately with
the default `AbortError` while scheduling nothing and registering no
listener. -/
theorem C7_pre_aborted :
    (∀ (now : ℚ) (d? : Option JSNum),
        setTimeoutEntry (some true) now d? = SetTimeoutReturn.preCleared ∧
        (setTimeoutEntry (some true) now d?).clearedFlag = true ∧
        (∀ t : ℚ, (setTimeoutEntry (some true) now d?).remainingAt t = JSNum.fin 0) ∧
        (setTimeoutEntry (some true) now d?).spans = []) ∧
    (∀ ms? : Option JSNum,
        delayInit true true ms? =
          { settled := some (DelaySettle.rejectedE (mkAbortError none)),
            timerPending := false, listenerOn := false }) := by
  constructor
  · intro now d?
    refine ⟨rfl, rfl, fun t => rfl, rfl⟩
  · intro ms?
    rfl

/-- Claim C5, amended: an omitted delay defaults to 0, and a NaN, negative
infinity, or negative delay collapses to 0 (the timer then behaves exactly
as if 0 had been passed), but `+Infinity` is caught by the
`delay > Number.MAX_SAFE_INTEGER` guard first and yields the infinite,
never-firing timer rather than a delay of 0. -/
theorem C5_delay_clamp :
    (classifyDelay none = DelayClass.finite 0) ∧
    (classifyDelay (some JSNum.nan) = DelayClass.finite 0) ∧
    (classifyDelay (some JSNum.negInf) = DelayClass.finite 0) ∧
    (∀ q : ℚ, q < 0 → classifyDelay (some (JSNum.fin q)) = DelayClass.finite 0) ∧
    (classifyDelay (some JSNum.posInf) = DelayClass.infinite) ∧
    (∀ (t0 : ℚ) (d? : Option JSNum), classifyDelay d? = DelayClass.finite 0 →
        mkTimeoutHandle t0 d? = mkTimeoutHandle t0 (some (JSNum.fin 0)) ∧
        oneShotInit t0 d? = oneShotInit t0 (some (JSNum.fin 0)) ∧
        mkIntervalHandle t0 d? = mkIntervalHandle t0 (some (JSNum.fin 0))) := by
  refine ⟨by decide, by decide, by decide, ?_, by decide, ?_⟩
  · intro q hq
    have hle : ¬ (maxSafeInteger < q) := by
      have : (0 : ℚ) ≤ maxSafeInteger := by norm_num [maxSafeInteger]
      linarith
    simp [classifyDelay, jsGt, hle, hq]
  · intro t0 d? h
    have h0 : classifyDelay (some (JSNum.fin 0)) = DelayClass.finite 0 := by decide
    exact ⟨by rw [mkTimeoutHandle, mkTimeoutHandle, h, h0],
           by rw [oneShotInit, oneShotInit, h, h0],
           by rw [mkIntervalHandle, mkIntervalHandle, h, h0]⟩

/-- Claim C5 witness at concrete inputs. -/
theorem C5_delay_clamp_witness :
    classifyDelay (some (JSNum.fin (-7))) = DelayClass.finite 0 ∧
    mkTimeoutHandle 4 (some JSNum.nan) = mkTimeoutHandle 4 (some (JSNum.fin 0)) :=
  ⟨C5_delay_clamp.2.2.2.1 (-7) (by norm_num),
   (C5_delay_clamp.2.2.2.2.2 4 (some JSNum.nan) (by decide)).1⟩

/-- Claim C5 counterexample: a delay of `+Infinity` does not behave as a
delay of 0 — it produces the infinite timer (absent target time, infinite
`remaining()`), unlike the delay-0 timer whose `remaining()` is 0. -/
theorem C5_counterexample :
    TimeoutHandle.remaining (mkTimeoutHandle 0 (some JSNum.posInf)) 0 = JSNum.posInf ∧
    TimeoutHandle.remaining (mkTimeoutHandle 0 (some (JSNum.fin 0))) 0 = JSNum.fin 0 ∧
    mkTimeoutHandle 0 (some JSNum.posInf) ≠ mkTimeoutHandle 0 (some (JSNum.fin 0)) ∧
    (oneShotInit 0 (some JSNum.posInf)).issuedSpans = [] ∧
    (oneShotInit 0 (some (JSNum.fin 0))).issuedSpans = [0] := by
  refine ⟨rfl, ?_, by decide, by decide, by decide⟩
  norm_num [TimeoutHandle.remaining, mkTimeoutHandle, classifyDelay, jsGt, maxSafeInteger]

/-- Claim C6: `remaining()` returns 0 on a cleared handle; returns the
infinite sentinel — never a finite number — exactly when the target time is
absent, which happens exactly when the requested delay exceeds
`Number.MAX_SAFE_INTEGER` under the JS `>` comparison; otherwise returns
`max 0 (targetTime - now)`; and it never returns a negative value.  The
same facts hold of the interval handle, whose absent target is the
`Infinity` stored on the overflow branch. -/
theorem C6_remaining_spec :
    (∀ (h : TimeoutHandle) (now : ℚ), h.cleared = true →
        TimeoutHandle.remaining h now = JSNum.fin 0) ∧
    (∀ (t0 : ℚ) (d? : Option JSNum),
        (mkTimeoutHandle t0 d?).targetTime = none ↔
          jsGt (d?.getD (JSNum.fin 0)) (JSNum.fin maxSafeInteger) = true) ∧
    (∀ (h : TimeoutHandle) (now : ℚ), h.cleared = false → h.targetTime = none →
        TimeoutHandle.remaining h now = JSNum.posInf) ∧
    (∀ (h : TimeoutHandle) (now t : ℚ), h.cleared = false → h.targetTime = some t →
        TimeoutHandle.remaining h now = JSNum.fin (max 0 (t - now))) ∧
    (∀ (h : TimeoutHandle) (now q : ℚ), TimeoutHandle.remaining h now = JSNum.fin q → 0 ≤ q) ∧
    (∀ (h : IntervalHandle) (now : ℚ), h.cleared = true →
        IntervalHandle.remaining h now = JSNum.fin 0) ∧
    (∀ (t0 : ℚ) (d? : Option JSNum),
        (mkIntervalHandle t0 d?).nextTargetTime = JSNum.posInf ↔
          jsGt (d?.getD (JSNum.fin 0)) (JSNum.fin maxSafeInteger) = true) ∧
    (∀ (h : IntervalHandle) (now q : ℚ), IntervalHandle.remaining h now = JSNum.fin q → 0 ≤ q) := by
  refine ⟨?_, ?_, ?_, ?_, ?_, ?_, ?_, ?_⟩
  · intro h now hc; simp [TimeoutHandle.remaining, hc]
  · intro t0 d?
    rw [← classifyDelay_infinite_iff]
    unfold mkTimeoutHandle
    cases hc : classifyDelay d? <;> simp [hc]
  · intro h now hc ht; simp [TimeoutHandle.remaining, hc, ht]
  · intro h now t hc ht; simp [TimeoutHandle.remaining, hc, ht]
  · intro h now q hq
    unfold TimeoutHandle.remaining at hq
    split at hq
    · cases hq; exact le_refl 0
    · cases hh : h.targetTime with
      | none => rw [hh] at hq; cases hq
      | some t => rw [hh] at hq; cases hq; exact le_max_left 0 _
  · intro h now hc; simp [IntervalHandle.remaining, hc]
  · intro t0 d?
    rw [← classifyDelay_infinite_iff]
    unfold mkIntervalHandle
    cases hc : classifyDelay d? <;> simp [hc]
  · intro h now q hq
    unfold IntervalHandle.remaining at hq
    split at hq
    · cases hq; exact le_refl 0
    · cases hh : h.nextTargetTime <;> rw [hh] at hq <;> try cases hq
      exact le_max_left 0 _

/-- Claim C6 witness at concrete handles. -/
theorem C6_remaining_spec_witness :
    TimeoutHandle.remaining { cleared := true, targetTime := some 9 } 2 = JSNum.fin 0 ∧
    TimeoutHandle.remaining { cleared := false, targetTime := none } 2 = JSNum.posInf ∧
    TimeoutHandle.remaining { cleared := false, targetTime := some 9 } 2
      = JSNum.fin (max 0 (9 - 2)) ∧
    (0 : ℚ) ≤ 0 :=
  ⟨C6_remaining_spec.1 _ 2 rfl,
   C6_remaining_spec.2.2.1 _ 2 rfl rfl,
   C6_remaining_spec.2.2.2.1 _ 2 9 rfl rfl,
   C6_remaining_spec.2.2.2.2.1 { cleared := true, targetTime := none } 2 0 rfl⟩

/-! Step lemmas for the one-shot machine. -/

theorem issueSeg_cleared (s : OneShotState) (rd : ℚ) :
    (issueSeg s rd).cleared = s.cleared := by
  unfold issueSeg
  split
  · rfl
  · split <;> rfl

theorem issueSeg_fired (s : OneShotState) (rd : ℚ) :
    (issueSeg s rd).fired = s.fired := by
  unfold issueSeg
  split
  · rfl
  · split <;> rfl

theorem issueSeg_targetTime (s : OneShotState) (rd : ℚ) :
    (issueSeg s rd).targetTime = s.targetTime := by
  unfold issueSeg
  split
  · rfl
  · split <;> rfl

theorem issueSeg_of_cleared (s : OneShotState) (rd : ℚ) (h : s.cleared = true) :
    issueSeg s rd = s := by
  unfold issueSeg
  simp [h]

theorem issueSeg_pending_isSome (s : OneShotState) (rd : ℚ) (h : s.cleared = false) :
    (issueSeg s rd).pendingSeg.isSome = true := by
  unfold issueSeg
  rw [if_neg (by simp [h])]
  split <;> rfl

theorem runOneShot_nil (s : OneShotState) : runOneShot s [] = s := rfl

theorem runOneShot_cons (s : OneShotState) (e : TimerEv) (tr : List TimerEv) :
    runOneShot s (e :: tr) = runOneShot (oneShotStep s e) tr := rfl

theorem runOneShot_append (s : OneShotState) (tr1 tr2 : List TimerEv) :
    runOneShot s (tr1 ++ tr2) = runOneShot (runOneShot s tr1) tr2 := by
  simp [runOneShot, List.foldl_append]

theorem oneShotStep_clear_eq (s : OneShotState) :
    oneShotStep s .clear = { s with cleared := true, pendingSeg := none } := rfl

theorem oneShotStep_fire_none (s : OneShotState) (now : ℚ) (hp : s.pendingSeg = none) :
    oneShotStep s (.fire now) = s := by
  simp only [oneShotStep, hp]

theorem oneShotStep_fire_final_cleared (s : OneShotState) (now : ℚ)
    (hp : s.pendingSeg = some Seg.final) (hc : s.cleared = true) :
    oneShotStep s (.fire now) = { s with pendingSeg := none } := by
  simp only [oneShotStep, hp]
  rw [if_pos hc]

theorem oneShotStep_fire_final_live (s : OneShotState) (now : ℚ)
    (hp : s.pendingSeg = some Seg.final) (hc : s.cleared = false) :
    oneShotStep s (.fire now) = { s with pendingSeg := none, fired := s.fired + 1 } := by
  simp only [oneShotStep, hp]
  rw [if_neg (by simp [hc])]

theorem oneShotStep_fire_chain (s : OneShotState) (now : ℚ)
    (hp : s.pendingSeg = some Seg.chain) :
    oneShotStep s (.fire now)
      = issueSeg { s with pendingSeg := none } (max 0 ((s.targetTime.getD 0) - now)) := by
  simp only [oneShotStep, hp]

theorem oneShotStep_fire_cleared (s : OneShotState) (now : ℚ) :
    (oneShotStep s (.fire now)).cleared = s.cleared := by
  cases hp : s.pendingSeg with
  | none => rw [oneShotStep_fire_none s now hp]
  | some g =>
    cases g with
    | final =>
      cases hc : s.cleared
      · rw [oneShotStep_fire_final_live s now hp hc]; exact hc
      · rw [oneShotStep_fire_final_cleared s now hp hc]; exact hc
    | chain => rw [oneShotStep_fire_chain s now hp, issueSeg_cleared]

theorem oneShotStep_cleared_mono (s : OneShotState) (e : TimerEv) (h : s.cleared = true) :
    (oneShotStep s e).cleared = true := by
  cases e with
  | clear => rfl
  | fire now => rw [oneShotStep_fire_cleared]; exact h

theorem runOneShot_cleared_mono (s : OneShotState) (tr : List TimerEv) (h : s.cleared = true) :
    (runOneShot s tr).cleared = true :=
  foldl_invariant oneShotStep (fun s' => s'.cleared = true)
    (fun a b ha => oneShotStep_cleared_mono a b ha) tr s h

theorem oneShotStep_frozen (s : OneShotState) (e : TimerEv) (h : s.cleared = true) :
    (oneShotStep s e).fired = s.fired ∧ (oneShotStep s e).issuedSpans = s.issuedSpans := by
  cases e with
  | clear => exact ⟨rfl, rfl⟩
  | fire now =>
    cases hp : s.pendingSeg with
    | none => rw [oneShotStep_fire_none s now hp]; exact ⟨rfl, rfl⟩
    | some g =>
      cases g with
      | final => rw [oneShotStep_fire_final_cleared s now hp h]; exact ⟨rfl, rfl⟩
      | chain =>
        rw [oneShotStep_fire_chain s now hp,
          issueSeg_of_cleared { s with pendingSeg := none } _ h]
        exact ⟨rfl, rfl⟩

theorem runOneShot_fired_frozen (s : OneShotState) (tr : List TimerEv) (h : s.cleared = true) :
    (runOneShot s tr).fired = s.fired := by
  have := foldl_invariant oneShotStep
    (fun s' => s'.cleared = true ∧ s'.fired = s.fired)
    (fun a b ha => ⟨oneShotStep_cleared_mono a b ha.1,
      ((oneShotStep_frozen a b ha.1).1).trans ha.2⟩) tr s ⟨h, rfl⟩
  exact this.2

/-- The one-shot safety invariant: at most one firing; once fired or cleared,
no native segment is outstanding. -/
def OneShotOk (s : OneShotState) : Prop :=
  s.fired ≤ 1 ∧ (s.fired = 1 → s.pendingSeg = none) ∧ (s.cleared = true → s.pendingSeg = none)

theorem oneShotStep_ok (s : OneShotState) (e : TimerEv) (h : OneShotOk s) :
    OneShotOk (oneShotStep s e) := by
  obtain ⟨h1, h2, h3⟩ := h
  cases e with
  | clear => exact ⟨h1, fun _ => rfl, fun _ => rfl⟩
  | fire now =>
    cases hp : s.pendingSeg with
    | none => rw [oneShotStep_fire_none s now hp]; exact ⟨h1, h2, h3⟩
    | some g =>
      cases g with
      | final =>
        cases hc : s.cleared with
        | true => rw [h3 hc] at hp; cases hp
        | false =>
          have hf0 : s.fired = 0 := by
            have hne : s.fired ≠ 1 := fun hf => by rw [h2 hf] at hp; cases hp
            omega
          rw [oneShotStep_fire_final_live s now hp hc]
          exact ⟨by simp [hf0], fun _ => rfl, fun _ => rfl⟩
      | chain =>
        cases hc : s.cleared with
        | true => rw [h3 hc] at hp; cases hp
        | false =>
          have hne : s.fired ≠ 1 := fun hf => by rw [h2 hf] at hp; cases hp
          rw [oneShotStep_fire_chain s now hp]
          refine ⟨?_, ?_, ?_⟩
          · rw [issueSeg_fired]; exact h1
          · rw [issueSeg_fired]; intro hf; exact absurd hf hne
          · rw [issueSeg_cleared]; intro hcc; exact absurd hcc (by simp [hc])

theorem oneShotInit_cleared (t0 : ℚ) (d? : Option JSNum) :
    (oneShotInit t0 d?).cleared = false := by
  unfold oneShotInit
  cases classifyDelay d? with
  | infinite => rfl
  | finite d => rw [issueSeg_cleared]

theorem oneShotInit_fired (t0 : ℚ) (d? : Option JSNum) :
    (oneShotInit t0 d?).fired = 0 := by
  unfold oneShotInit
  cases classifyDelay d? with
  | infinite => rfl
  | finite d => rw [issueSeg_fired]

theorem oneShotInit_pending_isSome (t0 : ℚ) (d? : Option JSNum) (d : ℚ)
    (h : classifyDelay d? = DelayClass.finite d) :
    (oneShotInit t0 d?).pendingSeg.isSome = true := by
  unfold oneShotInit
  rw [h]
  exact issueSeg_pending_isSome _ d rfl

theorem runOneShot_ok (t0 : ℚ) (d? : Option JSNum) (tr : List TimerEv) :
    OneShotOk (runOneShot (oneShotInit t0 d?) tr) := by
  apply foldl_invariant oneShotStep OneShotOk oneShotStep_ok
  refine ⟨?_, ?_, ?_⟩
  · rw [oneShotInit_fired]; omega
  · rw [oneShotInit_fired]; omega
  · rw [oneShotInit_cleared]; intro h; cases h

/-- The liveness invariant along a clear-free run: not cleared, at most one
firing, and while unfired a native segment is always outstanding. -/
def OneShotLive (s : OneShotState) : Prop :=
  s.cleared = false ∧ s.fired ≤ 1 ∧ (s.fired = 1 → s.pendingSeg = none) ∧
    (s.fired = 0 → s.pendingSeg ≠ none)

theorem oneShotStep_live (s : OneShotState) (now : ℚ) (h : OneShotLive s) :
    OneShotLive (oneShotStep s (.fire now)) := by
  obtain ⟨hc, h1, h2, h0⟩ := h
  cases hp : s.pendingSeg with
  | none => rw [oneShotStep_fire_none s now hp]; exact ⟨hc, h1, h2, h0⟩
  | some g =>
    cases g with
    | final =>
      have hf0 : s.fired = 0 := by
        have hne : s.fired ≠ 1 := fun hf => by rw [h2 hf] at hp; cases hp
        omega
      rw [oneShotStep_fire_final_live s now hp hc]
      exact ⟨hc, by simp [hf0], fun _ => rfl, fun hz => by simp [hf0] at hz⟩
    | chain =>
      have hne : s.fired ≠ 1 := fun hf => by rw [h2 hf] at hp; cases hp
      have hcl : ({ s with pendingSeg := none } : OneShotState).cleared = false := hc
      rw [oneShotStep_fire_chain s now hp]
      refine ⟨?_, ?_, ?_, ?_⟩
      · rw [issueSeg_cleared]; exact hcl
      · rw [issueSeg_fired]; exact h1
      · rw [issueSeg_fired]; intro hf; exact absurd hf hne
      · intro _
        have hs := issueSeg_pending_isSome { s with pendingSeg := none }
          (max 0 ((s.targetTime.getD 0) - now)) hcl
        intro hnone
        rw [hnone] at hs
        cases hs

theorem runOneShot_live (s : OneShotState) (tr : List TimerEv)
    (hnc : ∀ e ∈ tr, e ≠ TimerEv.clear) (h : OneShotLive s) :
    OneShotLive (runOneShot s tr) := by
  induction tr generalizing s with
  | nil => exact h
  | cons e t ih =>
    rw [runOneShot_cons]
    refine ih (oneShotStep s e) (fun x hx => hnc x (List.mem_cons_of_mem e hx)) ?_
    cases e with
    | clear => exact absurd rfl (hnc .clear (List.mem_cons_self _ _))
    | fire now => exact oneShotStep_live s now h

/-! Step lemmas for the interval machine. -/

theorem intervalIssue_cleared (s : IntervalState) (rd : ℚ) :
    (intervalIssue s rd).cleared = s.cleared := by
  unfold intervalIssue
  split
  · rfl
  · split <;> rfl

theorem intervalIssue_nextTarget (s : IntervalState) (rd : ℚ) :
    (intervalIssue s rd).nextTarget = s.nextTarget := by
  unfold intervalIssue
  split
  · rfl
  · split <;> rfl

theorem intervalIssue_args (s : IntervalState) (rd : ℚ) :
    (intervalIssue s rd).args = s.args := by
  unfold intervalIssue
  split
  · rfl
  · split <;> rfl

theorem intervalIssue_invocations (s : IntervalState) (rd : ℚ) :
    (intervalIssue s rd).invocations = s.invocations := by
  unfold intervalIssue
  split
  · rfl
  · split <;> rfl

theorem intervalIssue_of_cleared (s : IntervalState) (rd : ℚ) (h : s.cleared = true) :
    intervalIssue s rd = s := by
  unfold intervalIssue
  simp [h]

theorem intervalIssue_scheduleCalls_live (s : IntervalState) (rd : ℚ) (h : s.cleared = false) :
    (intervalIssue s rd).scheduleCalls = s.scheduleCalls ++ [rd] := by
  unfold intervalIssue
  rw [if_neg (by simp [h])]
  split <;> rfl

theorem runInterval_nil (p : ℚ) (s : IntervalState) : runInterval p s [] = s := rfl

theorem runInterval_cons (p : ℚ) (s : IntervalState) (e : TimerEv) (tr : List TimerEv) :
    runInterval p s (e :: tr) = runInterval p (intervalStep p s e) tr := rfl

theorem intervalStep_clear_eq (p : ℚ) (s : IntervalState) :
    intervalStep p s .clear = { s with cleared := true, pendingSeg := none } := rfl

theorem intervalStep_fire_none (p : ℚ) (s : IntervalState) (now : ℚ)
    (hp : s.pendingSeg = none) : intervalStep p s (.fire now) = s := by
  simp only [intervalStep, hp]

theorem intervalStep_fire_final_cleared (p : ℚ) (s : IntervalState) (now : ℚ)
    (hp : s.pendingSeg = some Seg.final) (hc : s.cleared = true) :
    intervalStep p s (.fire now) = { s with pendingSeg := none } := by
  simp only [intervalStep, hp]
  rw [if_pos hc]

theorem intervalStep_fire_final_live (p : ℚ) (s : IntervalState) (now : ℚ)
    (hp : s.pendingSeg = some Seg.final) (hc : s.cleared = false) :
    intervalStep p s (.fire now)
      = (fun s3 => { s3 with invocations := s3.invocations ++ [s3.args] })
          (intervalIssue { s with pendingSeg := none, nextTarget := s.nextTarget + p }
            (max 0 ((s.nextTarget + p) - now))) := by
  simp only [intervalStep, hp]
  rw [if_neg (by simp [hc])]

theorem intervalStep_fire_chain (p : ℚ) (s : IntervalState) (now : ℚ)
    (hp : s.pendingSeg = some Seg.chain) :
    intervalStep p s (.fire now)
      = intervalIssue { s with pendingSeg := none } (max 0 (s.nextTarget - now)) := by
  simp only [intervalStep, hp]

theorem intervalStep_fire_cleared (p : ℚ) (s : IntervalState) (now : ℚ) :
    (intervalStep p s (.fire now)).cleared = s.cleared := by
  cases hp : s.pendingSeg with
  | none => rw [intervalStep_fire_none p s now hp]
  | some g =>
    cases g with
    | final =>
      cases hc : s.cleared
      · rw [intervalStep_fire_final_live p s now hp hc]
        simp only [intervalIssue_cleared]
        exact hc
      · rw [intervalStep_fire_final_cleared p s now hp hc]; exact hc
    | chain => rw [intervalStep_fire_chain p s now hp, intervalIssue_cleared]

theorem intervalStep_cleared_mono (p : ℚ) (s : IntervalState) (e : TimerEv)
    (h : s.cleared = true) : (intervalStep p s e).cleared = true := by
  cases e with
  | clear => rfl
  | fire now => rw [intervalStep_fire_cleared]; exact h

theorem runInterval_cleared_mono (p : ℚ) (s : IntervalState) (tr : List TimerEv)
    (h : s.cleared = true) : (runInterval p s tr).cleared = true :=
  foldl_invariant (intervalStep p) (fun s' => s'.cleared = true)
    (fun a b ha => intervalStep_cleared_mono p a b ha) tr s h

theorem intervalStep_frozen (p : ℚ) (s : IntervalState) (e : TimerEv) (h : s.cleared = true) :
    (intervalStep p s e).invocations = s.invocations ∧
      (intervalStep p s e).issuedSpans = s.issuedSpans ∧
      (intervalStep p s e).scheduleCalls = s.scheduleCalls := by
  cases e with
  | clear => exact ⟨rfl, rfl, rfl⟩
  | fire now =>
    cases hp : s.pendingSeg with
    | none => rw [intervalStep_fire_none p s now hp]; exact ⟨rfl, rfl, rfl⟩
    | some g =>
      cases g with
      | final =>
        rw [intervalStep_fire_final_cleared p s now hp h]; exact ⟨rfl, rfl, rfl⟩
      | chain =>
        rw [intervalStep_fire_chain p s now hp,
          intervalIssue_of_cleared { s with pendingSeg := none } _ h]
        exact ⟨rfl, rfl, rfl⟩

theorem intervalStep_args_const (p : ℚ) (s : IntervalState) (e : TimerEv) :
    (intervalStep p s e).args = s.args := by
  cases e with
  | clear => rfl
  | fire now =>
    cases hp : s.pendingSeg with
    | none => rw [intervalStep_fire_none p s now hp]
    | some g =>
      cases g with
      | final =>
        cases hc : s.cleared
        · rw [intervalStep_fire_final_live p s now hp hc]
          simp only [intervalIssue_args]
        · rw [intervalStep_fire_final_cleared p s now hp hc]
      | chain => rw [intervalStep_fire_chain p s now hp, intervalIssue_args]

/-- The drift-free invariant: the advancing target always equals the anchor
`c` plus one period per callback invocation so far. -/
def IntervalAnchored (p c : ℚ) (s : IntervalState) : Prop :=
  s.nextTarget = c + p * s.invocations.length

theorem intervalStep_anchored (p c : ℚ) (s : IntervalState) (e : TimerEv)
    (h : IntervalAnchored p c s) : IntervalAnchored p c (intervalStep p s e) := by
  unfold IntervalAnchored at h ⊢
  cases e with
  | clear => exact h
  | fire now =>
    cases hp : s.pendingSeg with
    | none => rw [intervalStep_fire_none p s now hp]; exact h
    | some g =>
      cases g with
      | final =>
        cases hc : s.cleared
        · rw [intervalStep_fire_final_live p s now hp hc]
          simp only [intervalIssue_nextTarget, intervalIssue_invocations, intervalIssue_args,
            List.length_append, List.length_singleton]
          rw [h]
          push_cast
          ring
        · rw [intervalStep_fire_final_cleared p s now hp hc]; exact h
      | chain =>
        rw [intervalStep_fire_chain p s now hp]
        simp only [intervalIssue_nextTarget, intervalIssue_invocations]
        exact h

theorem intervalInit_fields (t0 p : ℚ) (args : List JSVal) :
    (intervalInit t0 p args).cleared = false ∧
      (intervalInit t0 p args).nextTarget = t0 + p ∧
      (intervalInit t0 p args).args = args ∧
      (intervalInit t0 p args).invocations = [] := by
  unfold intervalInit
  exact ⟨intervalIssue_cleared _ _, intervalIssue_nextTarget _ _,
    intervalIssue_args _ _, intervalIssue_invocations _ _⟩

theorem runInterval_anchored (p t0 : ℚ) (args : List JSVal) (tr : List TimerEv) :
    (runInterval p (intervalInit t0 p args) tr).nextTarget
      = (t0 + p) + p * (runInterval p (intervalInit t0 p args) tr).invocations.length := by
  have h0 : IntervalAnchored p (t0 + p) (intervalInit t0 p args) := by
    unfold IntervalAnchored
    rw [(intervalInit_fields t0 p args).2.1, (intervalInit_fields t0 p args).2.2.2]
    simp
  exact foldl_invariant (intervalStep p) (IntervalAnchored p (t0 + p))
    (fun a b ha => intervalStep_anchored p (t0 + p) a b ha) tr _ h0

theorem intervalStep_forwards (p : ℚ) (A : List JSVal) (s : IntervalState) (e : TimerEv)
    (h : s.args = A ∧ ∀ x ∈ s.invocations, x = A) :
    (intervalStep p s e).args = A ∧ ∀ x ∈ (intervalStep p s e).invocations, x = A := by
  obtain ⟨ha, hi⟩ := h
  cases e with
  | clear => exact ⟨ha, hi⟩
  | fire now =>
    cases hp : s.pendingSeg with
    | none => rw [intervalStep_fire_none p s now hp]; exact ⟨ha, hi⟩
    | some g =>
      cases g with
      | final =>
        cases hc : s.cleared
        · rw [intervalStep_fire_final_live p s now hp hc]
          simp only [intervalIssue_args, intervalIssue_invocations]
          refine ⟨ha, ?_⟩
          intro x hx
          rw [List.mem_append] at hx
          rcases hx with hx | hx
          · exact hi x hx
          · rw [List.mem_singleton] at hx
            rw [hx]; exact ha
        · rw [intervalStep_fire_final_cleared p s now hp hc]; exact ⟨ha, hi⟩
      | chain =>
        rw [intervalStep_fire_chain p s now hp]
        simp only [intervalIssue_args, intervalIssue_invocations]
        exact ⟨ha, hi⟩

theorem runInterval_uncleared (p : ℚ) (tr : List TimerEv)
    (hnc : ∀ e ∈ tr, e ≠ TimerEv.clear) :
    ∀ s : IntervalState, s.cleared = false → (runInterval p s tr).cleared = false := by
  induction tr with
  | nil => intro s h; exact h
  | cons e t ih =>
    intro s h
    rw [runInterval_cons]
    refine ih (fun x hx => hnc x (List.mem_cons_of_mem e hx)) (intervalStep p s e) ?_
    cases e with
    | clear => exact absurd rfl (hnc .clear (List.mem_cons_self _ _))
    | fire now => rw [intervalStep_fire_cleared]; exact h

/-- Claim C2: on each full-cycle completion with the interval not cleared,
the driver advances `nextTargetTime` by exactly the period `p` and hands the
span `max 0 (nextTargetTime - now)` — computed from the already-advanced
target — to the segment scheduler, in the same step that records the
callback invocation; consequently, over any event trace whatsoever (fire
times, and hence callback durations and segment-chain overheads, are
arbitrary), the target equals the initial target `t0 + p` plus one period
per completed tick, so the N-th tick is due at the initial target plus
`(N-1)` periods: the cadence is drift-free. -/
theorem C2_interval_drift_free :
    (∀ (p : ℚ) (s : IntervalState) (now : ℚ),
        s.cleared = false → s.pendingSeg = some Seg.final →
        (intervalStep p s (.fire now)).nextTarget = s.nextTarget + p ∧
        (intervalStep p s (.fire now)).scheduleCalls
          = s.scheduleCalls ++ [max 0 ((s.nextTarget + p) - now)] ∧
        (intervalStep p s (.fire now)).invocations = s.invocations ++ [s.args]) ∧
    (∀ (p t0 : ℚ) (args : List JSVal) (tr : List TimerEv),
        (runInterval p (intervalInit t0 p args) tr).nextTarget
          = (t0 + p) + p * (runInterval p (intervalInit t0 p args) tr).invocations.length) := by
  constructor
  · intro p s now hc hp
    rw [intervalStep_fire_final_live p s now hp hc]
    refine ⟨?_, ?_, ?_⟩
    · simp only [intervalIssue_nextTarget]
    · have hc2 : ({ s with pendingSeg := none, nextTarget := s.nextTarget + p } :
          IntervalState).cleared = false := hc
      simp only [intervalIssue_scheduleCalls_live _ _ hc2]
    · simp only [intervalIssue_invocations, intervalIssue_args]
  · exact fun p t0 args tr => runInterval_anchored p t0 args tr

/-- Claim C2 witness at concrete inputs. -/
theorem C2_interval_drift_free_witness :
    ((intervalStep 3 (intervalInit 0 3 []) (.fire 2)).nextTarget
        = (intervalInit 0 3 []).nextTarget + 3 ∧
      (intervalStep 3 (intervalInit 0 3 []) (.fire 2)).scheduleCalls
        = (intervalInit 0 3 []).scheduleCalls
            ++ [max 0 (((intervalInit 0 3 []).nextTarget + 3) - 2)] ∧
      (intervalStep 3 (intervalInit 0 3 []) (.fire 2)).invocations
        = (intervalInit 0 3 []).invocations ++ [(intervalInit 0 3 []).args]) ∧
    (runInterval 3 (intervalInit 0 3 []) [.fire 3, .fire 7]).nextTarget
      = (0 + 3) + 3 * (runInterval 3 (intervalInit 0 3 []) [.fire 3, .fire 7]).invocations.length :=
  ⟨C2_interval_drift_free.1 3 (intervalInit 0 3 []) 2 (by decide) (by decide),
   C2_interval_drift_free.2 3 0 [] [.fire 3, .fire 7]⟩

/-- Claim C3: the cleared flag is monotonic on both machines (a fire never
unsets it, a clear sets it forever); a fire that observes the flag set
invokes no callback and issues no native segment; a one-shot timer fires at
most once on any trace, exactly once on any completed clear-free trace, and
zero times when cleared while still unfired; and a repeating timer invokes
its callback exactly once per completed period — the advancing target equals
the initial target plus exactly one period per recorded invocation. -/
theorem C3_cleared_once :
    (∀ (s : OneShotState) (tr : List TimerEv), s.cleared = true →
        (runOneShot s tr).cleared = true) ∧
    (∀ (p : ℚ) (s : IntervalState) (tr : List TimerEv), s.cleared = true →
        (runInterval p s tr).cleared = true) ∧
    (∀ (s : OneShotState) (e : TimerEv), s.cleared = true →
        (oneShotStep s e).fired = s.fired ∧ (oneShotStep s e).issuedSpans = s.issuedSpans) ∧
    (∀ (p : ℚ) (s : IntervalState) (e : TimerEv), s.cleared = true →
        (intervalStep p s e).invocations = s.invocations ∧
          (intervalStep p s e).issuedSpans = s.issuedSpans) ∧
    (∀ (t0 : ℚ) (d? : Option JSNum) (tr : List TimerEv),
        (runOneShot (oneShotInit t0 d?) tr).fired ≤ 1) ∧
    (∀ (t0 : ℚ) (d? : Option JSNum) (d : ℚ) (tr : List TimerEv),
        classifyDelay d? = DelayClass.finite d →
        (∀ e ∈ tr, e ≠ TimerEv.clear) →
        (runOneShot (oneShotInit t0 d?) tr).pendingSeg = none →
        (runOneShot (oneShotInit t0 d?) tr).fired = 1) ∧
    (∀ (t0 : ℚ) (d? : Option JSNum) (tr1 tr2 : List TimerEv),
        (runOneShot (oneShotInit t0 d?) tr1).fired = 0 →
        (runOneShot (oneShotInit t0 d?) (tr1 ++ TimerEv.clear :: tr2)).fired = 0) ∧
    (∀ (p t0 : ℚ) (args : List JSVal) (tr : List TimerEv),
        (runInterval p (intervalInit t0 p args) tr).nextTarget
          = (t0 + p)
              + p * (runInterval p (intervalInit t0 p args) tr).invocations.length) := by
  refine ⟨runOneShot_cleared_mono, runInterval_cleared_mono, oneShotStep_frozen,
    fun p s e h => ⟨(intervalStep_frozen p s e h).1, (intervalStep_frozen p s e h).2.1⟩,
    ?_, ?_, ?_, fun p t0 args tr => runInterval_anchored p t0 args tr⟩
  · intro t0 d? tr
    exact (runOneShot_ok t0 d? tr).1
  · intro t0 d? d tr hcl hnc hpend
    have hlive0 : OneShotLive (oneShotInit t0 d?) := by
      refine ⟨oneShotInit_cleared t0 d?, ?_, ?_, ?_⟩
      · rw [oneShotInit_fired]; omega
      · rw [oneShotInit_fired]; omega
      · rw [oneShotInit_fired]
        intro _
        have hs := oneShotInit_pending_isSome t0 d? d hcl
        intro hnone
        rw [hnone] at hs
        cases hs
    have hlive := runOneShot_live (oneShotInit t0 d?) tr hnc hlive0
    obtain ⟨-, hle, -, h0⟩ := hlive
    by_cases hf : (runOneShot (oneShotInit t0 d?) tr).fired = 0
    · exact absurd hpend (h0 hf)
    · omega
  · intro t0 d? tr1 tr2 h0
    rw [runOneShot_append, runOneShot_cons, oneShotStep_clear_eq]
    rw [runOneShot_fired_frozen _ tr2 rfl]
    exact h0

/-- Claim C3 witness at concrete inputs. -/
theorem C3_cleared_once_witness :
    (runOneShot { cleared := true, targetTime := none, pendingSeg := none, fired := 0, issuedSpans := [] } [.fire 1]).cleared = true ∧
    (runOneShot (oneShotInit 0 (some (JSNum.fin 5))) [.fire 5]).fired ≤ 1 ∧
    (runOneShot (oneShotInit 0 (some (JSNum.fin 5))) [.fire 5]).fired = 1 ∧
    (runOneShot (oneShotInit 0 (some (JSNum.fin 5))) ([] ++ TimerEv.clear :: [.fire 5])).fired
      = 0 :=
  ⟨C3_cleared_once.1 _ [.fire 1] rfl,
   C3_cleared_once.2.2.2.2.1 0 (some (JSNum.fin 5)) [.fire 5],
   C3_cleared_once.2.2.2.2.2.1 0 (some (JSNum.fin 5)) 5 [.fire 5] (by decide) (by decide)
     (by decide),
   C3_cleared_once.2.2.2.2.2.2.1 0 (some (JSNum.fin 5)) [] [.fire 5] (by decide)⟩

/-- Claim C10: `setInterval` performs no options detection: the machine
carries the full trailing-argument list unchanged, every recorded callback
invocation receives exactly that list — including when the list consists of
a signal-carrying object — and, since the interval's alphabet has no abort
transition, the interval is only ever cleared by an explicit clear event:
on any clear-free trace, `cleared` stays false. -/
theorem C10_interval_forwards :
    (∀ (p t0 : ℚ) (args : List JSVal) (tr : List TimerEv),
        (runInterval p (intervalInit t0 p args) tr).args = args ∧
        ∀ inv ∈ (runInterval p (intervalInit t0 p args) tr).invocations, inv = args) ∧
    (∀ (p t0 : ℚ) (args : List JSVal) (tr : List TimerEv),
        (∀ e ∈ tr, e ≠ TimerEv.clear) →
        (runInterval p (intervalInit t0 p args) tr).cleared = false) := by
  constructor
  · intro p t0 args tr
    refine foldl_invariant (intervalStep p)
      (fun s => s.args = args ∧ ∀ x ∈ s.invocations, x = args)
      (fun a b ha => intervalStep_forwards p args a b ha) tr _ ?_
    refine ⟨(intervalInit_fields t0 p args).2.2.1, ?_⟩
    rw [(intervalInit_fields t0 p args).2.2.2]
    intro x hx
    cases hx
  · intro p t0 args tr hnc
    exact runInterval_uncleared p tr hnc _ (intervalInit_fields t0 p args).1

/-- Claim C10 witness: a trailing object carrying a signal is forwarded to
the callback verbatim on each tick and does not clear the interval. -/
theorem C10_interval_forwards_witness :
    ((runInterval 3 (intervalInit 0 3 [JSVal.obj true 1]) [.fire 3]).args
        = [JSVal.obj true 1] ∧
      ∀ inv ∈ (runInterval 3 (intervalInit 0 3 [JSVal.obj true 1]) [.fire 3]).invocations,
        inv = [JSVal.obj true 1]) ∧
    (runInterval 3 (intervalInit 0 3 [JSVal.obj true 1]) [.fire 3]).cleared = false :=
  ⟨C10_interval_forwards.1 3 0 [JSVal.obj true 1] [.fire 3],
   C10_interval_forwards.2 3 0 [JSVal.obj true 1] [.fire 3] (by decide)⟩

/-! Lemmas for the `delay` machine. -/

theorem delayStep_frozen (s : DelayState) (e : DelayEv) (x : DelaySettle)
    (h : s.settled = some x) : (delayStep s e).settled = some x := by
  cases e with
  | fire =>
    simp only [delayStep]
    split
    · simp [h]
    · exact h
  | abort =>
    simp only [delayStep]
    split
    · simp [h]
    · exact h

theorem runDelay_frozen (s : DelayState) (tr : List DelayEv) (x : DelaySettle)
    (h : s.settled = some x) : (runDelay s tr).settled = some x :=
  foldl_invariant delayStep (fun s' => s'.settled = some x)
    (fun a b ha => delayStep_frozen a b x ha) tr s h

theorem delayInit_not_aborted (hasSignal : Bool) (ms? : Option JSNum) :
    delayInit hasSignal false ms? =
      { settled := none,
        timerPending := (match classifyDelay ms? with
          | .infinite => false
          | .finite _ => true),
        listenerOn := hasSignal } := by
  unfold delayInit
  rw [if_neg (by simp)]

/-- Claim C8, amended: a settled `delay` promise never changes its
settlement (at most one of resolve/fail, exactly once); for a call whose
clamped duration is finite the timer is scheduled, so the trace in which
its fire arrives first resolves the promise — forever; a call with a signal
whose abort arrives first rejects with the default `AbortError` — forever,
and rejection is distinct from resolution, so it never resolves.  The
`AbortError` carries name `'AbortError'` and the default message unless one
is supplied at construction.  (A call whose duration exceeds
`Number.MAX_SAFE_INTEGER`, such as `+Infinity`, schedules no timer and —
absent an abort — never settles at all; see the counterexample.) -/
theorem C8_delay_settlement :
    (∀ (s : DelayState) (e : DelayEv) (x : DelaySettle),
        s.settled = some x → (delayStep s e).settled = some x) ∧
    (∀ (hasSignal : Bool) (ms? : Option JSNum) (d : ℚ),
        classifyDelay ms? = DelayClass.finite d →
        ∀ tr : List DelayEv,
          (runDelay (delayStep (delayInit hasSignal false ms?) DelayEv.fire) tr).settled
            = some DelaySettle.resolvedU) ∧
    (∀ (ms? : Option JSNum) (tr : List DelayEv),
        (runDelay (delayStep (delayInit true false ms?) DelayEv.abort) tr).settled
          = some (DelaySettle.rejectedE (mkAbortError none))) ∧
    (∀ e : AbortErr, DelaySettle.rejectedE e ≠ DelaySettle.resolvedU) ∧
    mkAbortError none = { name := "AbortError", message := defaultAbortMessage } ∧
    (∀ m : String, mkAbortError (some m) = { name := "AbortError", message := m }) := by
  refine ⟨delayStep_frozen, ?_, ?_, fun e h => DelaySettle.noConfusion h, rfl, fun m => rfl⟩
  · intro hasSignal ms? d hd tr
    refine runDelay_frozen _ tr _ ?_
    rw [delayInit_not_aborted, hd]
    rfl
  · intro ms? tr
    refine runDelay_frozen _ tr _ ?_
    rw [delayInit_not_aborted]
    rfl

/-- Claim C8 witness at concrete inputs. -/
theorem C8_delay_settlement_witness :
    (runDelay (delayStep (delayInit false false (some (JSNum.fin 5))) DelayEv.fire) []).settled
      = some DelaySettle.resolvedU ∧
    (runDelay (delayStep (delayInit true false (some (JSNum.fin 5))) DelayEv.abort)
        [DelayEv.fire]).settled = some (DelaySettle.rejectedE (mkAbortError none)) ∧
    delayStep { settled := some DelaySettle.resolvedU, timerPending := false, listenerOn := true } DelayEv.abort
      = { settled := some DelaySettle.resolvedU, timerPending := false, listenerOn := false } ∧
    (delayStep { settled := some DelaySettle.resolvedU, timerPending := false, listenerOn := true } DelayEv.abort).settled = some DelaySettle.resolvedU :=
  ⟨C8_delay_settlement.2.1 false (some (JSNum.fin 5)) 5 (by decide) [],
   C8_delay_settlement.2.2.1 (some (JSNum.fin 5)) [DelayEv.fire],
   by decide,
   C8_delay_settlement.1 _ DelayEv.abort DelaySettle.resolvedU rfl⟩

/-- Claim C8 counterexample: `delay(Infinity)` (no signal) schedules no
timer — the clamped duration exceeds `Number.MAX_SAFE_INTEGER` — so its
promise starts unsettled and every possible event leaves the state fixed:
neither resolution nor failure ever occurs, contradicting "exactly one of
resolution or failure occurs, exactly once, for every call". -/
theorem C8_counterexample :
    (delayInit false false (some JSNum.posInf)).settled = none ∧
    delayStep (delayInit false false (some JSNum.posInf)) DelayEv.fire
      = delayInit false false (some JSNum.posInf) ∧
    delayStep (delayInit false false (some JSNum.posInf)) DelayEv.abort
      = delayInit false false (some JSNum.posInf) ∧
    (runDelay (delayInit false false (some JSNum.posInf))
        [DelayEv.fire, DelayEv.abort, DelayEv.fire]).settled = none := by
  decide

/-! The segment-chain count for long delays. -/

theorem MAX_TIMEOUT_pos : (0 : ℚ) < MAX_TIMEOUT := by norm_num [MAX_TIMEOUT]

theorem scheduleChain_succ (fuel : ℕ) (target now rd : ℚ) :
    scheduleChain (fuel + 1) target now rd
      = if rd ≤ MAX_TIMEOUT then [rd]
        else MAX_TIMEOUT ::
          scheduleChain fuel target (now + MAX_TIMEOUT)
            (max 0 (target - (now + MAX_TIMEOUT))) := rfl

/-- With every segment firing exactly on schedule, a run of the `schedule`
recursion whose remaining delay lies in `(k*MAX, (k+1)*MAX]` issues `k`
capped segments of span `MAX_TIMEOUT` followed by one final segment holding
the remainder. -/
theorem scheduleChain_eq (k : ℕ) :
    ∀ (fuel : ℕ) (target now : ℚ), k + 1 ≤ fuel →
      (k : ℚ) * MAX_TIMEOUT < target - now →
      target - now ≤ ((k : ℚ) + 1) * MAX_TIMEOUT →
      scheduleChain fuel target now (target - now)
        = List.replicate k MAX_TIMEOUT ++ [target - now - (k : ℚ) * MAX_TIMEOUT] := by
  have hM := MAX_TIMEOUT_pos
  induction k with
  | zero =>
    intro fuel target now hf h1 h2
    obtain ⟨f, rfl⟩ : ∃ f, fuel = f + 1 := ⟨fuel - 1, by omega⟩
    rw [scheduleChain_succ, if_pos (by push_cast at h2; linarith)]
    simp
  | succ k ih =>
    intro fuel target now hf h1 h2
    obtain ⟨f, rfl⟩ : ∃ f, fuel = f + 1 := ⟨fuel - 1, by omega⟩
    push_cast at h1 h2 ⊢
    have hkn : (0 : ℚ) ≤ (k : ℚ) := Nat.cast_nonneg k
    have hgt : ¬ (target - now ≤ MAX_TIMEOUT) := by
      push_neg
      nlinarith
    rw [scheduleChain_succ, if_neg hgt]
    have hpos : (0 : ℚ) ≤ target - (now + MAX_TIMEOUT) := by nlinarith
    rw [max_eq_right hpos]
    have hrec := ih f target (now + MAX_TIMEOUT) (by omega)
      (by push_cast; linarith) (by push_cast; linarith)
    rw [hrec]
    have harg : target - (now + MAX_TIMEOUT) - (k : ℚ) * MAX_TIMEOUT
        = target - now - ((k : ℚ) + 1) * MAX_TIMEOUT := by ring
    rw [harg, List.replicate_succ, List.cons_append]

theorem ceil_between (k : ℕ) (d : ℚ) (h1 : (k : ℚ) * MAX_TIMEOUT < d)
    (h2 : d ≤ ((k : ℚ) + 1) * MAX_TIMEOUT) :
    ⌈d / MAX_TIMEOUT⌉ = (k : ℤ) + 1 := by
  have hM := MAX_TIMEOUT_pos
  rw [Int.ceil_eq_iff]
  constructor
  · push_cast
    rw [lt_div_iff hM]
    linarith
  · push_cast
    rw [div_le_iff hM]
    linarith

/-- Claim C1, amended: for every finite delay `d` with
`MAX_TIMEOUT < d ≤ Number.MAX_SAFE_INTEGER`, `setTimeout` sets the handle's
target time to `now + d`, and — each native segment firing exactly at its
scheduled time — issues `ceil(d / MAX_TIMEOUT)` native segments in total,
namely `ceil(d / MAX_TIMEOUT) - 1` capped segments of span `MAX_TIMEOUT`
(each equal to `min(remaining, MAX_TIMEOUT)` since more than `MAX_TIMEOUT`
remains there) followed by one final segment holding the remainder, the
spans summing to `d` so the callback runs at the target time.  (A finite
delay above `Number.MAX_SAFE_INTEGER` instead takes the infinite branch;
see the counterexample.) -/
theorem C1_segment_chain (t0 d : ℚ) (h1 : MAX_TIMEOUT < d) (h2 : d ≤ maxSafeInteger) :
    (mkTimeoutHandle t0 (some (JSNum.fin d))).targetTime = some (t0 + d) ∧
    ∃ n : ℕ, (n : ℤ) = ⌈d / MAX_TIMEOUT⌉ ∧ 2 ≤ n ∧
      setTimeoutSegments t0 (some (JSNum.fin d))
        = List.replicate (n - 1) MAX_TIMEOUT ++ [d - ((n : ℚ) - 1) * MAX_TIMEOUT] ∧
      (setTimeoutSegments t0 (some (JSNum.fin d))).length = n ∧
      (setTimeoutSegments t0 (some (JSNum.fin d))).sum = d := by
  have hM := MAX_TIMEOUT_pos
  have hd0 : 0 < d := lt_trans hM h1
  have hcl : classifyDelay (some (JSNum.fin d)) = DelayClass.finite d := by
    simp [classifyDelay, jsGt, not_lt.mpr h2, not_lt.mpr hd0.le]
  constructor
  · unfold mkTimeoutHandle
    rw [hcl]
  · have hK2 : 2 ≤ ⌈d / MAX_TIMEOUT⌉ := by
      have hx : (1 : ℚ) < d / MAX_TIMEOUT := by
        rw [lt_div_iff hM]
        linarith
      have := Int.lt_ceil.mpr (by exact_mod_cast hx : ((1 : ℤ) : ℚ) < d / MAX_TIMEOUT)
      omega
    set k : ℕ := (⌈d / MAX_TIMEOUT⌉ - 1).toNat with hkdef
    have hk : (k : ℤ) = ⌈d / MAX_TIMEOUT⌉ - 1 := Int.toNat_of_nonneg (by omega)
    have hkQ : ((k : ℚ) + 1) = ((⌈d / MAX_TIMEOUT⌉ : ℤ) : ℚ) := by
      have : ((k : ℤ) : ℚ) = ((⌈d / MAX_TIMEOUT⌉ - 1 : ℤ) : ℚ) := by exact_mod_cast hk
      push_cast at this ⊢
      linarith
    have hb1 : (k : ℚ) * MAX_TIMEOUT < d := by
      have hlt : ((⌈d / MAX_TIMEOUT⌉ : ℤ) : ℚ) - 1 < d / MAX_TIMEOUT := by
        have := Int.ceil_lt_add_one (d / MAX_TIMEOUT)
        linarith
      have hkq : (k : ℚ) < d / MAX_TIMEOUT := by
        rw [← hkQ] at hlt
        linarith
      calc (k : ℚ) * MAX_TIMEOUT < (d / MAX_TIMEOUT) * MAX_TIMEOUT := by
            exact mul_lt_mul_of_pos_right hkq hM
        _ = d := by field_simp
    have hb2 : d ≤ ((k : ℚ) + 1) * MAX_TIMEOUT := by
      rw [hkQ]
      have hle : d / MAX_TIMEOUT ≤ ((⌈d / MAX_TIMEOUT⌉ : ℤ) : ℚ) := Int.le_ceil _
      calc d = (d / MAX_TIMEOUT) * MAX_TIMEOUT := by field_simp
        _ ≤ ((⌈d / MAX_TIMEOUT⌉ : ℤ) : ℚ) * MAX_TIMEOUT :=
            mul_le_mul_of_nonneg_right hle hM.le
    have hfuel : k + 1 ≤ chainFuel d := by
      unfold chainFuel
      omega
    have hseg : setTimeoutSegments t0 (some (JSNum.fin d))
        = List.replicate k MAX_TIMEOUT ++ [d - (k : ℚ) * MAX_TIMEOUT] := by
      unfold setTimeoutSegments
      rw [hcl]
      have hrw : t0 + d - t0 = d := by ring
      have := scheduleChain_eq k (chainFuel d) (t0 + d) t0 hfuel
        (by rw [hrw]; exact hb1) (by rw [hrw]; exact hb2)
      rw [hrw] at this
      exact this
    refine ⟨k + 1, ?_, by omega, ?_, ?_, ?_⟩
    · omega
    · rw [hseg]
      have : ((k + 1 : ℕ) : ℚ) - 1 = (k : ℚ) := by push_cast; ring
      rw [this]
      simp
    · rw [hseg]
      simp
    · rw [hseg]
      simp [List.sum_replicate, nsmul_eq_mul]

/-- Claim C1 witness at the concrete delay `MAX_TIMEOUT + 1`. -/
theorem C1_segment_chain_witness :
    (mkTimeoutHandle 0 (some (JSNum.fin 2147483648))).targetTime = some (0 + 2147483648) ∧
    ∃ n : ℕ, (n : ℤ) = ⌈(2147483648 : ℚ) / MAX_TIMEOUT⌉ ∧ 2 ≤ n ∧
      setTimeoutSegments 0 (some (JSNum.fin 2147483648))
        = List.replicate (n - 1) MAX_TIMEOUT ++ [2147483648 - ((n : ℚ) - 1) * MAX_TIMEOUT] ∧
      (setTimeoutSegments 0 (some (JSNum.fin 2147483648))).length = n ∧
      (setTimeoutSegments 0 (some (JSNum.fin 2147483648))).sum = 2147483648 :=
  C1_segment_chain 0 2147483648 (by norm_num [MAX_TIMEOUT]) (by norm_num [maxSafeInteger])

/-- Claim C1 counterexample: the finite delay `2^53` (`MAX_SAFE_INTEGER + 1`)
is greater than `MAX_TIMEOUT`, yet the call takes the infinite branch: no
target time is set (so it is not `now + d` as claimed) and zero native
segments are issued, although `ceil(d / MAX_TIMEOUT)` is positive. -/
theorem C1_counterexample :
    (mkTimeoutHandle 0 (some (JSNum.fin 9007199254740992))).targetTime = none ∧
    (mkTimeoutHandle 0 (some (JSNum.fin 9007199254740992))).targetTime
      ≠ some (0 + 9007199254740992) ∧
    setTimeoutSegments 0 (some (JSNum.fin 9007199254740992)) = [] ∧
    0 < ⌈(9007199254740992 : ℚ) / MAX_TIMEOUT⌉ := by
  refine ⟨by decide, by decide, by decide, ?_⟩
  rw [Int.ceil_pos]
  apply div_pos <;> norm_num [MAX_TIMEOUT]

end TsTimeout
